import Mathlib

/-!
# Verification of the agentic task orchestrator
(`server/agentic-orchestrator-streaming.js`)

This development gives a shallow embedding of the orchestrator's core:

* Node's `path.join` normalization, as used to resolve a model-supplied
  relative path against the project root (`executeTool`, line 289/296/317);
* the tool dispatcher `executeTool` (lines 287-452), with the filesystem
  modelled as a finite map from absolute path strings to file contents,
  and the per-call unreliable broker publish / subprocess outcome
  supplied by a `ToolWorld` record;
* the streaming response assembly loop (lines 508-551);
* the iterative conversation driver `processTask` (lines 455-660), driven
  by a `script` that supplies, for each iteration, either a provider
  error (the streaming call throwing) or the finalized list of content
  blocks of the model's response.

Modelling conventions: timestamps (`Date.now()`) are dropped from events
and stored results; the Redis queue/result-store/publish operations that
the source wraps in their own try/catch (or that fall under the worker
loop's resource-error handling) are modelled as reliable, while the
provider streaming call and the in-`executeTool` effects (the broker
publish on `files:<projectId>`, and subprocess execution) may fail.
`JSON.stringify` of tool results fed back into the conversation is
modelled as carrying the structured result value itself.  The JS field
`package` of the install result is named `pkg` here.
-/

/-- Concatenation of a list of strings, in order. -/
def strConcat : List String → String
  | [] => ""
  | s :: r => s ++ strConcat r

/-- Split a character list on a separator character (like `String.split`
on a single character, but kernel-computable). -/
def splitOnChar (c : Char) : List Char → List (List Char)
  | [] => [[]]
  | x :: xs =>
    let r := splitOnChar c xs
    if x = c then [] :: r
    else match r with
      | [] => [[x]]
      | y :: ys => (x :: y) :: ys

/-- Containment check, `containsSub sub hay`: does `hay` contain `sub` as a contiguous
sublist?  Models JS `String.prototype.includes`. -/
def containsSub (sub : List Char) : List Char → Bool
  | [] => sub.isPrefixOf ([] : List Char)
  | c :: t => sub.isPrefixOf (c :: t) || containsSub sub t

/-- JS `haystack.includes(needle)`. -/
def jsIncludes (hay sub : String) : Bool := containsSub sub.data hay.data

/-- Replace the first occurrence of `old` in the list by `new`;
models JS `String.prototype.replace` with a string pattern
(first occurrence only; `$`-substitution in the replacement is not
modelled since no verified property depends on the replaced text). -/
def replaceFirstAux (old new : List Char) : List Char → List Char
  | [] => if old.isPrefixOf ([] : List Char) then new else []
  | c :: t =>
    if old.isPrefixOf (c :: t) then new ++ (c :: t).drop old.length
    else c :: replaceFirstAux old new t

/-- JS `s.replace(old, new)` (string pattern: first occurrence). -/
def jsReplaceFirst (s old new : String) : String :=
  String.mk (replaceFirstAux old.data new.data s.data)

/-- Is the path absolute (starts with `/`)? -/
def isAbsPath (s : String) : Bool :=
  match s.data with
  | '/' :: _ => true
  | _ => false

/-- One step of Node path normalization: push one segment onto the
normalized-segment stack.  A `..` pops the previous segment unless the
stack is empty (at the root of an absolute path it is dropped; for a
relative path it is kept) or the previous segment is itself `..`. -/
def pushSeg (isAbs : Bool) (acc : List String) (seg : String) : List String :=
  if seg = ".." then
    match acc.getLast? with
    | some s => if s = ".." then acc ++ [".."] else acc.dropLast
    | none => if isAbs then [] else [".."]
  else acc ++ [seg]

/-- Join normalized segments back into a path string. -/
def joinSegs : List String → String
  | [] => ""
  | [s] => s
  | s :: r => s ++ "/" ++ joinSegs r

/-- Node `path.join(a, b)`: concatenate with a separator, then normalize
away empty, `.` and `..` segments.  This is the resolution the
orchestrator applies to every model-supplied relative path
(`path.join(projectRoot, toolInput.path)`). -/
def pathJoin (a b : String) : String :=
  let isAbs := isAbsPath a
  let segs := (splitOnChar '/' (a ++ "/" ++ b).data).map String.mk
  let segs := segs.filter (fun s => !(s == "") && !(s == "."))
  let ns := segs.foldl (pushSeg isAbs) []
  (if isAbs then "/" else "") ++ joinSegs ns

/-- Is `p` the root itself or strictly inside the directory `root`? -/
def underRoot (root p : String) : Bool :=
  p == root || (root ++ "/").data.isPrefixOf p.data

/-- The filesystem: a finite map from absolute path to file content,
as an association list with unique keys. -/
abbrev Fs := List (String × String)

/-- Model of `fs.readFile`: the content at `p`, if present. -/
def fsRead (fs : Fs) (p : String) : Option String :=
  (fs.find? (fun e => e.1 == p)).map (·.2)

/-- Model of `fs.writeFile`: create or overwrite the file at `p`. -/
def fsWrite (fs : Fs) (p c : String) : Fs :=
  if fs.any (fun e => e.1 == p) then
    fs.map (fun e => if e.1 == p then (p, c) else e)
  else fs ++ [(p, c)]

/-- Does `q` name an entry inside directory `d`?  If so, return the
remaining path characters after `d ++ "/"`. -/
def remAfter (d q : String) : Option (List Char) :=
  if (d ++ "/").data.isPrefixOf q.data then
    some (q.data.drop (d ++ "/").data.length)
  else none

/-- Immediate children of directory `d`: `(name, isDirectory)` pairs,
deduplicated, in first-seen order (models `fs.readdir`). -/
def childNames (fs : Fs) (d : String) : List (String × Bool) :=
  fs.foldl (fun acc e =>
    match remAfter d e.1 with
    | none => acc
    | some r =>
      let name := String.mk (r.takeWhile (fun c => !(c == '/')))
      let isDir := r.any (fun c => c == '/')
      if acc.contains (name, isDir) then acc else acc ++ [(name, isDir)]) []

/-- Subdirectory names of `d`, each suffixed with `/` as the source does. -/
def childDirs (fs : Fs) (d : String) : List String :=
  ((childNames fs d).filter (·.2)).map (fun x => x.1 ++ "/")

/-- Plain file names directly inside `d`. -/
def childFiles (fs : Fs) (d : String) : List String :=
  ((childNames fs d).filter (fun x => !x.2)).map (·.1)

/-- Does directory `d` exist?  The project root always exists (created
at task start); any other directory exists iff some file lies under it. -/
def dirExists (fs : Fs) (projectRoot d : String) : Bool :=
  d == projectRoot || fs.any (fun e => (remAfter d e.1).isSome)

/-- The structured input of a tool call, with every field optional
(a JS object; absent fields are `none`, i.e. `undefined`). -/
structure ToolInput where
  path : Option String := none
  content : Option String := none
  old_content : Option String := none
  new_content : Option String := none
  pkg : Option String := none
  dev : Option Bool := none
  query : Option String := none
  command : Option String := none
  prompt : Option String := none
  filename : Option String := none
  summary : Option String := none
  files_modified : Option (List String) := none

deriving DecidableEq, Repr

/-- The result object a tool handler returns (union of the fields the
source's handlers produce; absent fields are `none`). -/
structure ToolResult where
  success : Bool
  error : Option String := none
  message : Option String := none
  path : Option String := none
  content : Option String := none
  lines : Option Nat := none
  directories : Option (List String) := none
  files : Option (List String) := none
  pkg : Option String := none
  output : Option String := none
  stdout : Option String := none
  stderr : Option String := none
  command : Option String := none
  completed : Option Bool := none
  summary : Option String := none
  files_modified : Option (List String) := none
  filename : Option String := none
  note : Option String := none
  results : Option (List (String × String)) := none

deriving DecidableEq, Repr

/-- A record published on the `files:<projectId>` live-preview channel. -/
structure FsEvent where
  action : String
  path : String
  content : String

deriving DecidableEq, Repr

/-- The task context handed to `executeTool`. -/
structure ToolCtx where
  taskId : String
  projectId : String
  userId : String

deriving DecidableEq, Repr

deriving instance DecidableEq for Except

/-- The environment behavior for one `executeTool` call: whether the
`files:<projectId>` broker publish succeeds, and the outcome of a
subprocess (`npm install` / `execute_command`): `(stdout, stderr)` on
success, the thrown error message on failure. -/
structure ToolWorld where
  pubOk : Bool
  execRes : Except String (String × String)

deriving DecidableEq, Repr

/-- What one `executeTool` call produces: the structured result, the
filesystem afterwards, and the file-mutation events actually published. -/
structure ToolOutcome where
  result : ToolResult
  fs : Fs
  fileEvents : List FsEvent

deriving DecidableEq, Repr

/-- The result of a thrown `TypeError` on invalid (missing) arguments,
caught by the dispatcher's catch-all. -/
def typeErrorResult : ToolResult :=
  { success := false, error := some "TypeError: invalid tool arguments" }

/-- The tool dispatcher (source lines 287-452).  Mirrors the `switch` on
the tool name; every handler resolves model-supplied paths with
`pathJoin (pathJoin root ctx.projectId) _` exactly as the source does
with `path.join`.  A failing broker publish or subprocess rejects the
awaited promise and lands in the catch-all, which returns
`success := false` with the thrown message. -/
def executeTool (root toolName : String) (input : ToolInput) (ctx : ToolCtx)
    (fs : Fs) (w : ToolWorld) : ToolOutcome :=
  let projectRoot := pathJoin root ctx.projectId
  match toolName with
  | "create_file" =>
    match input.path, input.content with
    | some p, some c =>
      let filePath := pathJoin projectRoot p
      let fs1 := fsWrite fs filePath c
      if w.pubOk then
        ⟨{ success := true, message := some ("Created file: " ++ p), path := some p },
          fs1, [⟨"create", p, c⟩]⟩
      else ⟨{ success := false, error := some "publish failed" }, fs1, []⟩
    | _, _ => ⟨typeErrorResult, fs, []⟩
  | "edit_file" =>
    match input.path with
    | none => ⟨typeErrorResult, fs, []⟩
    | some p =>
      let filePath := pathJoin projectRoot p
      match fsRead fs filePath with
      | none =>
        ⟨{ success := false,
           error := some ("ENOENT: no such file or directory, open " ++ filePath) },
          fs, []⟩
      | some content =>
        let oldc := input.old_content.getD "undefined"
        if jsIncludes content oldc then
          let newContent := jsReplaceFirst content oldc (input.new_content.getD "undefined")
          let fs1 := fsWrite fs filePath newContent
          if w.pubOk then
            ⟨{ success := true, message := some ("Edited file: " ++ p), path := some p },
              fs1, [⟨"edit", p, newContent⟩]⟩
          else ⟨{ success := false, error := some "publish failed" }, fs1, []⟩
        else
          ⟨{ success := false,
             error := some ("Old content not found in " ++ p ++ ". The file may have changed.") },
            fs, []⟩
  | "read_file" =>
    match input.path with
    | none => ⟨typeErrorResult, fs, []⟩
    | some p =>
      match fsRead fs (pathJoin projectRoot p) with
      | some c =>
        ⟨{ success := true, content := some c, path := some p,
           lines := some (splitOnChar '\n' c.data).length }, fs, []⟩
      | none =>
        ⟨{ success := false,
           error := some ("ENOENT: no such file or directory, open " ++ pathJoin projectRoot p) },
          fs, []⟩
  | "list_files" =>
    let p0 := input.path.getD ""
    let dirPath := pathJoin projectRoot p0
    if dirExists fs projectRoot dirPath then
      ⟨{ success := true, directories := some (childDirs fs dirPath),
         files := some (childFiles fs dirPath),
         path := some (if p0 = "" then "/" else p0) }, fs, []⟩
    else
      ⟨{ success := false,
         error := some ("ENOENT: no such file or directory, scandir " ++ dirPath) },
        fs, []⟩
  | "install_package" =>
    let pk := input.pkg.getD "undefined"
    match w.execRes with
    | .ok (o, _) =>
      ⟨{ success := true, message := some ("Installed " ++ pk), pkg := some pk,
         output := some o }, fs, []⟩
    | .error m => ⟨{ success := false, error := some m }, fs, []⟩
  | "web_search" =>
    ⟨{ success := true, message := some ("Searched for: " ++ input.query.getD "undefined"),
       results := some [("Search result placeholder",
                         "In production, integrate with real search API")] }, fs, []⟩
  | "execute_command" =>
    match input.command with
    | none => ⟨typeErrorResult, fs, []⟩
    | some cmd =>
      match w.execRes with
      | .ok (o, e) =>
        ⟨{ success := true, stdout := some o, stderr := some e, command := some cmd },
          fs, []⟩
      | .error m => ⟨{ success := false, error := some m }, fs, []⟩
  | "generate_image" =>
    ⟨{ success := true,
       message := some ("Would generate image: " ++ input.prompt.getD "undefined"),
       filename := input.filename,
       note := some "In production, integrate with OpenAI DALL-E 3 API" }, fs, []⟩
  | "task_complete" =>
    ⟨{ success := true, completed := some true, summary := input.summary,
       files_modified := some (input.files_modified.getD []) }, fs, []⟩
  | _ => ⟨{ success := false, error := some ("Unknown tool: " ++ toolName) }, fs, []⟩

/-- A progress event published on `progress:<taskId>` (timestamps
dropped, constant human-readable message strings kept only where a
claim mentions them). -/
inductive ProgressEvent
  | taskStarted (agentType : String)
  | iterationStart (iteration : Nat)
  | thinkingStart
  | toolStart (tool : String)
  | thinkingChunk (text : String)
  | toolExecuting (tool : String) (input : ToolInput)
  | toolResult (tool : String) (result : ToolResult)
  | taskCompleted (summary : Option String) (files : Option (List String))
      (message : Option String)
  | taskWarning
  | taskError (msg : String)

deriving DecidableEq, Repr

/-- A content block of the model's response, as the stream describes it
(`type` is `"text"` or `"tool_use"`). -/
structure ContentBlock where
  type : String
  text : String := ""
  id : String := ""
  name : String := ""
  input : ToolInput := {}

deriving DecidableEq, Repr

/-- One event of the provider's response stream, carrying exactly the
fields the source reads (`content_block` on a stop event is optional —
the source reads it with `event.content_block?.type`). -/
inductive StreamEvent
  | contentBlockStart (cb : ContentBlock)
  | contentBlockDelta (dtype : String) (text : String)
  | contentBlockStop (cb : Option ContentBlock)
  | messageStop

deriving DecidableEq, Repr

/-- The accumulator of the stream-consumption loop: the pending text
block, the collected tool-use blocks, the assistant message content,
and the progress events published so far. -/
structure StreamAcc where
  currentThinking : String
  toolUses : List ContentBlock
  content : List ContentBlock
  events : List ProgressEvent

deriving DecidableEq, Repr

def initAcc : StreamAcc := ⟨"", [], [], []⟩

/-- One iteration of the `for await` stream loop (source lines 508-551),
minus the `message_stop` break which `runStream` handles. -/
def stepStream (acc : StreamAcc) : StreamEvent → StreamAcc
  | .contentBlockStart cb =>
    if cb.type = "text" then { acc with events := acc.events ++ [.thinkingStart] }
    else if cb.type = "tool_use" then
      { acc with events := acc.events ++ [.toolStart cb.name] }
    else acc
  | .contentBlockDelta dtype text =>
    if dtype = "text_delta" then
      { acc with currentThinking := acc.currentThinking ++ text,
                 events := acc.events ++ [.thinkingChunk text] }
    else acc
  | .contentBlockStop ocb =>
    match ocb with
    | some cb =>
      if cb.type = "text" then
        { acc with content := acc.content ++ [⟨"text", acc.currentThinking, "", "", {}⟩],
                   currentThinking := "" }
      else if cb.type = "tool_use" then
        { acc with toolUses := acc.toolUses ++ [cb], content := acc.content ++ [cb] }
      else acc
    | none => acc
  | .messageStop => acc

/-- The stream loop: fold `stepStream` over the events, breaking at the
first `message_stop`. -/
def runStream : List StreamEvent → StreamAcc → StreamAcc
  | [], acc => acc
  | .messageStop :: _, acc => acc
  | e :: rest, acc => runStream rest (stepStream acc e)

/-- A finalized content block of one model response: either a text block
given by its stream deltas in order, or a tool invocation. -/
inductive Block
  | text (deltas : List String)
  | toolUse (id name : String) (input : ToolInput)

deriving DecidableEq, Repr

def Block.isText : Block → Bool
  | .text _ => true
  | .toolUse _ _ _ => false

/-- The well-formed stream events describing one block: a start event,
the deltas, and a stop event carrying the finalized block. -/
def blockEvents : Block → List StreamEvent
  | .text ds =>
    .contentBlockStart ⟨"text", "", "", "", {}⟩ ::
      (ds.map (StreamEvent.contentBlockDelta "text_delta")) ++
      [.contentBlockStop (some ⟨"text", strConcat ds, "", "", {}⟩)]
  | .toolUse id name input =>
    [.contentBlockStart ⟨"tool_use", "", id, name, input⟩,
     .contentBlockStop (some ⟨"tool_use", "", id, name, input⟩)]

/-- The full well-formed stream for a response made of `bs`, ending in
`message_stop`. -/
def blocksStream : List Block → List StreamEvent
  | [] => [.messageStop]
  | b :: r => blockEvents b ++ blocksStream r

/-- The tool-use content blocks of a response, in order. -/
def toolCBs : List Block → List ContentBlock
  | [] => []
  | .text _ :: r => toolCBs r
  | .toolUse id name input :: r => ⟨"tool_use", "", id, name, input⟩ :: toolCBs r

/-- The assistant-message content the stream loop assembles. -/
def blocksContent : List Block → List ContentBlock
  | [] => []
  | .text ds :: r => ⟨"text", strConcat ds, "", "", {}⟩ :: blocksContent r
  | .toolUse id name input :: r => ⟨"tool_use", "", id, name, input⟩ :: blocksContent r

/-- The progress events the stream loop publishes. -/
def blocksEvents : List Block → List ProgressEvent
  | [] => []
  | .text ds :: r =>
    .thinkingStart :: (ds.map ProgressEvent.thinkingChunk) ++ blocksEvents r
  | .toolUse _ name _ :: r => .toolStart name :: blocksEvents r

/-- The text payloads of the `thinking_chunk` events in a list, in order. -/
def chunkTexts (evs : List ProgressEvent) : List String :=
  evs.filterMap (fun e => match e with
    | .thinkingChunk t => some t
    | _ => none)

/-- One message of the conversation (tool results carry the structured
result value in place of its JSON serialization). -/
inductive Message
  | user (prompt : String)
  | assistant (content : List ContentBlock)
  | toolResults (rs : List (String × ToolResult))

deriving DecidableEq, Repr

/-- The outcome of one streaming call to the provider: either the call
(or the stream consumption) throws, or it delivers a finalized response
made of the given content blocks. -/
inductive IterOutcome
  | providerError (msg : String)
  | response (blocks : List Block)

/-- The mutable state of one `processTask` run. -/
structure TaskState where
  fs : Fs
  messages : List Message
  events : List ProgressEvent
  fileEvents : List FsEvent
  iterations : Nat
  completed : Bool
  toolCalls : Nat

deriving DecidableEq, Repr

/-- The terminal record stored at `result:<taskId>` (timestamp dropped;
absent JSON fields are `none`). -/
structure StoredResult where
  taskId : String
  agentType : String
  iterations : Option Nat := none
  completed : Option Bool := none
  error : Option String := none
  ttlSeconds : Nat

deriving DecidableEq, Repr

/-- A task popped from the queue (named `OrchTask` because Lean's core
already declares `Task`). -/
structure OrchTask where
  taskId : String
  userId : String
  projectId : String
  prompt : String

deriving DecidableEq, Repr

def maxIterations : Nat := 20

/-- Dispatch one tool call of the batch (source lines 560-594): publish
`tool_executing`, run the tool, publish `tool_result`, record the
result for the batched tool-result message, and mark the task completed
(publishing `task_completed`) if this was a successful `task_complete`. -/
def execOneTool (root : String) (worlds : Nat → ToolWorld) (ctx : ToolCtx)
    (p : TaskState × List (String × ToolResult)) (cb : ContentBlock) :
    TaskState × List (String × ToolResult) :=
  let st := p.1
  let out := executeTool root cb.name cb.input ctx st.fs (worlds st.toolCalls)
  let isDone := cb.name == "task_complete" && out.result.success
  let evs := st.events ++ [.toolExecuting cb.name cb.input, .toolResult cb.name out.result]
      ++ (if isDone then
            [.taskCompleted cb.input.summary cb.input.files_modified none] else [])
  ({ st with fs := out.fs, fileEvents := st.fileEvents ++ out.fileEvents,
             toolCalls := st.toolCalls + 1,
             completed := st.completed || isDone, events := evs },
   p.2 ++ [(cb.id, out.result)])

/-- The state after publishing `iteration_start` and bumping the
iteration counter (source lines 485-491). -/
def bumpIter (st : TaskState) : TaskState :=
  { st with iterations := st.iterations + 1,
            events := st.events ++ [.iterationStart (st.iterations + 1)] }

/-- One iteration of the driver loop (source lines 484-609): bump the
counter, call the provider (which may throw: `.error` carries the state
at the throw point), consume the stream, append the assistant message,
then either dispatch the tool batch or treat the response as an
implicit completion. -/
def stepIteration (root : String) (script : Nat → IterOutcome)
    (worlds : Nat → ToolWorld) (ctx : ToolCtx) (st0 : TaskState) :
    Except (String × TaskState) TaskState :=
  let st1 := bumpIter st0
  match script st0.iterations with
  | .providerError msg => .error (msg, st1)
  | .response blocks =>
    let sacc := runStream (blocksStream blocks) initAcc
    let st2 := { st1 with events := st1.events ++ sacc.events,
                          messages := st1.messages ++ [.assistant sacc.content] }
    if sacc.toolUses.isEmpty then
      .ok { st2 with completed := true,
                     events := st2.events ++
                       [.taskCompleted none none
                          (some "Agent completed thinking, no more actions needed")] }
    else
      let r := sacc.toolUses.foldl (execOneTool root worlds ctx) (st2, [])
      .ok { r.1 with messages := r.1.messages ++ [.toolResults r.2] }

/-- The `while (!completed && iterations < maxIterations)` loop, with
the remaining iteration budget as fuel (`fuel = maxIterations -
iterations` at entry). -/
def runIterations (root : String) (script : Nat → IterOutcome)
    (worlds : Nat → ToolWorld) (ctx : ToolCtx) :
    Nat → TaskState → Except (String × TaskState) TaskState
  | 0, st => .ok st
  | fuel + 1, st =>
    if st.completed then .ok st
    else
      match stepIteration root script worlds ctx st with
      | .error e => .error e
      | .ok st' => runIterations root script worlds ctx fuel st'

/-- The state a task starts from: project workspace created, `task_started`
published, the conversation holding the user prompt. -/
def initState (agentType : String) (fs0 : Fs) (task : OrchTask) : TaskState :=
  { fs := fs0, messages := [.user task.prompt], events := [.taskStarted agentType],
    fileEvents := [], iterations := 0, completed := false, toolCalls := 0 }

/-- The whole of `processTask`: run the loop; on normal exit publish
`task_warning` whenever the counter reached the cap, then store the
success-shaped result; if the provider threw, publish `task_error` and
store the error-shaped result.  The second component lists every write
to `result:<taskId>`, in order. -/
def processTask (root agentType : String) (script : Nat → IterOutcome)
    (worlds : Nat → ToolWorld) (fs0 : Fs) (task : OrchTask) :
    TaskState × List StoredResult :=
  let ctx : ToolCtx := ⟨task.taskId, task.projectId, task.userId⟩
  match runIterations root script worlds ctx maxIterations (initState agentType fs0 task) with
  | .ok st =>
    let st := if maxIterations ≤ st.iterations then
        { st with events := st.events ++ [.taskWarning] } else st
    (st, [{ taskId := task.taskId, agentType := agentType,
            iterations := some st.iterations, completed := some st.completed,
            error := none, ttlSeconds := 3600 }])
  | .error (msg, st) =>
    ({ st with events := st.events ++ [.taskError msg] },
     [{ taskId := task.taskId, agentType := agentType, iterations := none,
        completed := none, error := some msg, ttlSeconds := 3600 }])

/-- The state carried out of the loop, on both the normal and the
provider-error path. -/
def outState : Except (String × TaskState) TaskState → TaskState
  | .ok s => s
  | .error (_, s) => s

/-- A world in which every broker publish and subprocess succeeds. -/
def okWorlds : Nat → ToolWorld := fun _ => ⟨true, .ok ("", "")⟩

def demoTask : OrchTask := ⟨"t1", "u1", "p1", "hello"⟩

/-- A model that answers with one `web_search` call for 19 iterations and
then calls `task_complete` on the 20th. -/
def lateCompleteScript : Nat → IterOutcome := fun n =>
  if n < 19 then .response [.toolUse "tu1" "web_search" { query := some "q" }]
  else .response [.toolUse "tu2" "task_complete" { summary := some "done" }]

/-- A model that requests a `web_search` on every iteration and never
completes. -/
def busyScript : Nat → IterOutcome := fun _ =>
  .response [.toolUse "tu1" "web_search" { query := some "q" }]

/-- A model whose first response has no content blocks at all. -/
def emptyScript : Nat → IterOutcome := fun _ => .response []

/-- A model whose streaming call always throws. -/
def errScript : Nat → IterOutcome := fun _ => .providerError "boom"

/-- A model that requests `web_search` and `task_complete` in one batch. -/
def batchScript : Nat → IterOutcome := fun _ =>
  .response [.toolUse "a" "web_search" { query := some "x" },
             .toolUse "b" "task_complete" { summary := some "s" }]

/-- A model that answers with a pure text response. -/
def textScript : Nat → IterOutcome := fun _ => .response [.text ["Hello, ", "done."]]

def demoRecord : StoredResult := ⟨"t1", "generic", some 1, some true, none, 3600⟩

/-! ## Theorems -/

theorem strAppendEmpty (s : String) : s ++ "" = s := by
  cases s with
  | mk data => show String.mk (data ++ []) = String.mk data
               rw [List.append_nil]

theorem strEmptyAppend (s : String) : "" ++ s = s := by
  cases s with
  | mk data => rfl

theorem strAppendAssoc (a b c : String) : a ++ b ++ c = a ++ (b ++ c) := by
  cases a with
  | mk da =>
    cases b with
    | mk db =>
      cases c with
      | mk dc => show String.mk (da ++ db ++ dc) = String.mk (da ++ (db ++ dc))
                 rw [List.append_assoc]

theorem runStream_cons_start (cb : ContentBlock) (rest : List StreamEvent) (acc : StreamAcc) :
    runStream (.contentBlockStart cb :: rest) acc
      = runStream rest (stepStream acc (.contentBlockStart cb)) := rfl

theorem runStream_cons_delta (d t : String) (rest : List StreamEvent) (acc : StreamAcc) :
    runStream (.contentBlockDelta d t :: rest) acc
      = runStream rest (stepStream acc (.contentBlockDelta d t)) := rfl

theorem runStream_cons_stop (ocb : Option ContentBlock) (rest : List StreamEvent) (acc : StreamAcc) :
    runStream (.contentBlockStop ocb :: rest) acc
      = runStream rest (stepStream acc (.contentBlockStop ocb)) := rfl

theorem stepStream_startText (acc : StreamAcc) :
    stepStream acc (.contentBlockStart ⟨"text", "", "", "", {}⟩)
      = { acc with events := acc.events ++ [.thinkingStart] } := by
  simp [stepStream]

theorem stepStream_startTool (acc : StreamAcc) (id name : String) (input : ToolInput) :
    stepStream acc (.contentBlockStart ⟨"tool_use", "", id, name, input⟩)
      = { acc with events := acc.events ++ [.toolStart name] } := by
  simp [stepStream]

theorem stepStream_delta (acc : StreamAcc) (t : String) :
    stepStream acc (.contentBlockDelta "text_delta" t)
      = { acc with currentThinking := acc.currentThinking ++ t,
                   events := acc.events ++ [.thinkingChunk t] } := by
  simp [stepStream]

theorem stepStream_stopText (acc : StreamAcc) (cb : ContentBlock) (h : cb.type = "text") :
    stepStream acc (.contentBlockStop (some cb))
      = { acc with content := acc.content ++ [⟨"text", acc.currentThinking, "", "", {}⟩],
                   currentThinking := "" } := by
  simp [stepStream, h]

theorem stepStream_stopTool (acc : StreamAcc) (id name : String) (input : ToolInput) :
    stepStream acc (.contentBlockStop (some ⟨"tool_use", "", id, name, input⟩))
      = { acc with toolUses := acc.toolUses ++ [⟨"tool_use", "", id, name, input⟩],
                   content := acc.content ++ [⟨"tool_use", "", id, name, input⟩] } := by
  simp [stepStream]

theorem runStream_deltas (ds : List String) (rest : List StreamEvent) (acc : StreamAcc) :
    runStream ((ds.map (StreamEvent.contentBlockDelta "text_delta")) ++ rest) acc
      = runStream rest
          { acc with currentThinking := acc.currentThinking ++ strConcat ds,
                     events := acc.events ++ ds.map ProgressEvent.thinkingChunk } := by
  induction ds generalizing acc with
  | nil => simp [strConcat, strAppendEmpty]
  | cons d ds ih =>
    rw [List.map_cons, List.cons_append, runStream_cons_delta, stepStream_delta, ih]
    simp [strConcat, strAppendAssoc, List.append_assoc]

/-- Closed form of the stream loop on a well-formed stream: starting
with no pending text, it assembles exactly the blocks' content, collects
exactly the tool-use blocks, and publishes exactly the blocks' events. -/
theorem runStream_blocks (bs : List Block) :
    ∀ tu ct evs, runStream (blocksStream bs) ⟨"", tu, ct, evs⟩
      = ⟨"", tu ++ toolCBs bs, ct ++ blocksContent bs, evs ++ blocksEvents bs⟩ := by
  induction bs with
  | nil =>
    intro tu ct evs
    simp [blocksStream, runStream, toolCBs, blocksContent, blocksEvents]
  | cons b r ih =>
    intro tu ct evs
    cases b with
    | text ds =>
      rw [show blocksStream (Block.text ds :: r)
            = .contentBlockStart ⟨"text", "", "", "", {}⟩ ::
                ((ds.map (StreamEvent.contentBlockDelta "text_delta")) ++
                 (.contentBlockStop (some ⟨"text", strConcat ds, "", "", {}⟩) ::
                  blocksStream r)) from by
            simp [blocksStream, blockEvents, List.append_assoc]]
      rw [runStream_cons_start, stepStream_startText, runStream_deltas,
        runStream_cons_stop, stepStream_stopText _ _ rfl]
      dsimp only
      rw [strEmptyAppend, ih]
      simp [toolCBs, blocksContent, blocksEvents, List.append_assoc]
    | toolUse id name input =>
      rw [show blocksStream (Block.toolUse id name input :: r)
            = .contentBlockStart ⟨"tool_use", "", id, name, input⟩ ::
                (.contentBlockStop (some ⟨"tool_use", "", id, name, input⟩) ::
                 blocksStream r) from by simp [blocksStream, blockEvents]]
      rw [runStream_cons_start, stepStream_startTool, runStream_cons_stop,
        stepStream_stopTool]
      dsimp only
      rw [ih]
      simp [toolCBs, blocksContent, blocksEvents, List.append_assoc]

/-- Closed form of `stepIteration` with the stream consumption replaced by its closed
form. -/
theorem stepIteration_spec (root : String) (script : Nat → IterOutcome)
    (worlds : Nat → ToolWorld) (ctx : ToolCtx) (st0 : TaskState) :
    stepIteration root script worlds ctx st0 =
      match script st0.iterations with
      | .providerError msg => .error (msg, bumpIter st0)
      | .response blocks =>
        let st2 := { bumpIter st0 with
                       events := (bumpIter st0).events ++ blocksEvents blocks,
                       messages := (bumpIter st0).messages ++
                         [.assistant (blocksContent blocks)] }
        if (toolCBs blocks).isEmpty then
          .ok { st2 with completed := true,
                         events := st2.events ++
                           [.taskCompleted none none
                              (some "Agent completed thinking, no more actions needed")] }
        else
          let r := (toolCBs blocks).foldl (execOneTool root worlds ctx) (st2, [])
          .ok { r.1 with messages := r.1.messages ++ [.toolResults r.2] } := by
  cases hs : script st0.iterations with
  | providerError msg => simp [stepIteration, hs]
  | response blocks =>
    have hrs : runStream (blocksStream blocks) initAcc
        = ⟨"", toolCBs blocks, blocksContent blocks, blocksEvents blocks⟩ := by
      have := runStream_blocks blocks [] [] []
      simpa [initAcc] using this
    simp [stepIteration, hs, hrs]

theorem execOneTool_fst_iterations (root : String) (worlds : Nat → ToolWorld)
    (ctx : ToolCtx) (p : TaskState × List (String × ToolResult)) (cb : ContentBlock) :
    ((execOneTool root worlds ctx p cb).1).iterations = p.1.iterations := rfl

theorem execOneTool_fst_completed (root : String) (worlds : Nat → ToolWorld)
    (ctx : ToolCtx) (p : TaskState × List (String × ToolResult)) (cb : ContentBlock) :
    ((execOneTool root worlds ctx p cb).1).completed
      = (p.1.completed || (cb.name == "task_complete"
          && (executeTool root cb.name cb.input ctx p.1.fs (worlds p.1.toolCalls)).result.success)) := rfl

theorem execOneTool_fst_events (root : String) (worlds : Nat → ToolWorld)
    (ctx : ToolCtx) (p : TaskState × List (String × ToolResult)) (cb : ContentBlock) :
    ((execOneTool root worlds ctx p cb).1).events
      = p.1.events ++
        [.toolExecuting cb.name cb.input,
         .toolResult cb.name (executeTool root cb.name cb.input ctx p.1.fs (worlds p.1.toolCalls)).result]
        ++ (if cb.name == "task_complete"
              && (executeTool root cb.name cb.input ctx p.1.fs (worlds p.1.toolCalls)).result.success
            then [.taskCompleted cb.input.summary cb.input.files_modified none] else []) := rfl

theorem foldl_execOneTool_iterations (root : String) (worlds : Nat → ToolWorld) (ctx : ToolCtx) :
    ∀ (l : List ContentBlock) (p : TaskState × List (String × ToolResult)),
      ((l.foldl (execOneTool root worlds ctx) p).1).iterations = p.1.iterations := by
  intro l
  induction l with
  | nil => intro p; rfl
  | cons cb r ih => intro p; rw [List.foldl_cons, ih, execOneTool_fst_iterations]

theorem foldl_execOneTool_completed_mono (root : String) (worlds : Nat → ToolWorld) (ctx : ToolCtx) :
    ∀ (l : List ContentBlock) (p : TaskState × List (String × ToolResult)),
      p.1.completed = true →
      ((l.foldl (execOneTool root worlds ctx) p).1).completed = true := by
  intro l
  induction l with
  | nil => intro p h; exact h
  | cons cb r ih =>
    intro p h
    rw [List.foldl_cons]
    exact ih _ (by rw [execOneTool_fst_completed, h, Bool.true_or])

theorem executeTool_task_complete_eq (root : String) (input : ToolInput) (ctx : ToolCtx)
    (fs : Fs) (w : ToolWorld) :
    executeTool root "task_complete" input ctx fs w
      = ⟨{ success := true, completed := some true, summary := input.summary,
           files_modified := some (input.files_modified.getD []) }, fs, []⟩ := rfl

theorem foldl_execOneTool_completed_of_mem (root : String) (worlds : Nat → ToolWorld) (ctx : ToolCtx) :
    ∀ (l : List ContentBlock) (p : TaskState × List (String × ToolResult)) (cb : ContentBlock),
      cb ∈ l → cb.name = "task_complete" →
      ((l.foldl (execOneTool root worlds ctx) p).1).completed = true := by
  intro l
  induction l with
  | nil => intro p cb h; exact absurd h (List.not_mem_nil cb)
  | cons hd tl ih =>
    intro p cb hmem hname
    rw [List.foldl_cons]
    rcases List.mem_cons.mp hmem with heq | htl
    · subst heq
      apply foldl_execOneTool_completed_mono
      rw [execOneTool_fst_completed, hname, executeTool_task_complete_eq]
      simp
    · exact ih _ cb htl hname

theorem stepIteration_iterations (root : String) (script : Nat → IterOutcome)
    (worlds : Nat → ToolWorld) (ctx : ToolCtx) (st : TaskState) :
    (outState (stepIteration root script worlds ctx st)).iterations = st.iterations + 1 := by
  rw [stepIteration_spec]
  cases script st.iterations with
  | providerError m => simp [outState, bumpIter]
  | response blocks =>
    dsimp only
    split
    · simp [outState, bumpIter]
    · simp [outState, foldl_execOneTool_iterations, bumpIter]

theorem runIterations_of_completed (root : String) (script : Nat → IterOutcome)
    (worlds : Nat → ToolWorld) (ctx : ToolCtx) (fuel : Nat) (st : TaskState)
    (h : st.completed = true) :
    runIterations root script worlds ctx fuel st = .ok st := by
  cases fuel with
  | zero => rfl
  | succ n => simp [runIterations, h]

theorem runIterations_iterations_le (root : String) (script : Nat → IterOutcome)
    (worlds : Nat → ToolWorld) (ctx : ToolCtx) :
    ∀ (fuel : Nat) (st : TaskState),
      (outState (runIterations root script worlds ctx fuel st)).iterations
        ≤ st.iterations + fuel := by
  intro fuel
  induction fuel with
  | zero => intro st; simp [runIterations, outState]
  | succ n ih =>
    intro st
    simp only [runIterations]
    split
    · simp [outState]
    · cases h : stepIteration root script worlds ctx st with
      | error e =>
        obtain ⟨m, st'⟩ := e
        have hi := stepIteration_iterations root script worlds ctx st
        rw [h] at hi
        simp only [outState] at hi ⊢
        omega
      | ok st' =>
        have hi := stepIteration_iterations root script worlds ctx st
        rw [h] at hi
        have hih := ih st'
        simp only [outState] at hi hih ⊢
        omega

theorem blocksEvents_no_warning : ∀ bs : List Block,
    ProgressEvent.taskWarning ∉ blocksEvents bs := by
  intro bs
  induction bs with
  | nil => simp [blocksEvents]
  | cons b r ih =>
    cases b with
    | text ds => simp [blocksEvents, ih]
    | toolUse id name input => simp [blocksEvents, ih]

theorem execOneTool_no_warning (root : String) (worlds : Nat → ToolWorld)
    (ctx : ToolCtx) (p : TaskState × List (String × ToolResult)) (cb : ContentBlock)
    (h : ProgressEvent.taskWarning ∉ p.1.events) :
    ProgressEvent.taskWarning ∉ ((execOneTool root worlds ctx p cb).1).events := by
  rw [execOneTool_fst_events]
  simp only [List.mem_append, List.mem_cons]
  rintro ((hm | (he | (he | he))) | hm)
  · exact h hm
  · exact ProgressEvent.noConfusion he
  · exact ProgressEvent.noConfusion he
  · exact (List.not_mem_nil _) he
  · revert hm
    split
    · simp only [List.mem_singleton]
      intro he
      exact ProgressEvent.noConfusion he
    · exact List.not_mem_nil _

theorem foldl_execOneTool_no_warning (root : String) (worlds : Nat → ToolWorld) (ctx : ToolCtx) :
    ∀ (l : List ContentBlock) (p : TaskState × List (String × ToolResult)),
      ProgressEvent.taskWarning ∉ p.1.events →
      ProgressEvent.taskWarning ∉ ((l.foldl (execOneTool root worlds ctx) p).1).events := by
  intro l
  induction l with
  | nil => intro p h; exact h
  | cons cb r ih =>
    intro p h
    rw [List.foldl_cons]
    exact ih _ (execOneTool_no_warning root worlds ctx p cb h)

theorem stepIteration_no_warning (root : String) (script : Nat → IterOutcome)
    (worlds : Nat → ToolWorld) (ctx : ToolCtx) (st : TaskState)
    (h : ProgressEvent.taskWarning ∉ st.events) :
    ProgressEvent.taskWarning ∉ (outState (stepIteration root script worlds ctx st)).events := by
  rw [stepIteration_spec]
  cases script st.iterations with
  | providerError m =>
    simp only [outState, bumpIter, List.mem_append, List.mem_singleton]
    rintro (hm | he)
    · exact h hm
    · exact ProgressEvent.noConfusion he
  | response blocks =>
    dsimp only
    split
    · simp [outState, bumpIter, blocksEvents_no_warning blocks, h]
    · dsimp only [outState]
      apply foldl_execOneTool_no_warning
      dsimp only
      simp [bumpIter, blocksEvents_no_warning blocks, h]

theorem runIterations_no_warning (root : String) (script : Nat → IterOutcome)
    (worlds : Nat → ToolWorld) (ctx : ToolCtx) :
    ∀ (fuel : Nat) (st : TaskState),
      ProgressEvent.taskWarning ∉ st.events →
      ProgressEvent.taskWarning ∉ (outState (runIterations root script worlds ctx fuel st)).events := by
  intro fuel
  induction fuel with
  | zero => intro st h; exact h
  | succ n ih =>
    intro st h
    simp only [runIterations]
    split
    · exact h
    · cases hs : stepIteration root script worlds ctx st with
      | error e =>
        have := stepIteration_no_warning root script worlds ctx st h
        rw [hs] at this
        obtain ⟨m, st'⟩ := e
        exact this
      | ok st' =>
        have := stepIteration_no_warning root script worlds ctx st h
        rw [hs] at this
        exact ih st' this

theorem mem_toolCBs (id name : String) (input : ToolInput) :
    ∀ bs : List Block, Block.toolUse id name input ∈ bs →
      (⟨"tool_use", "", id, name, input⟩ : ContentBlock) ∈ toolCBs bs := by
  intro bs
  induction bs with
  | nil => intro h; exact absurd h (List.not_mem_nil _)
  | cons b r ih =>
    intro h
    rcases List.mem_cons.mp h with heq | htl
    · rw [← heq]
      simp [toolCBs]
    · cases b with
      | text ds => simpa [toolCBs] using ih htl
      | toolUse id' name' input' => simp [toolCBs, ih htl]

theorem toolCBs_eq_nil_of_all_text :
    ∀ bs : List Block, bs.all Block.isText = true → toolCBs bs = [] := by
  intro bs
  induction bs with
  | nil => intro _; rfl
  | cons b r ih =>
    intro h
    rw [List.all_cons, Bool.and_eq_true] at h
    cases b with
    | text ds => exact ih h.2
    | toolUse id name input => exact absurd h.1 (by simp [Block.isText])

/-- If the response batch contains a `task_complete` invocation, the
iteration ends with the task marked completed. -/
theorem stepIteration_task_complete (root : String) (script : Nat → IterOutcome)
    (worlds : Nat → ToolWorld) (ctx : ToolCtx) (st : TaskState)
    (blocks : List Block) (id : String) (input : ToolInput)
    (hs : script st.iterations = .response blocks)
    (hmem : Block.toolUse id "task_complete" input ∈ blocks) :
    ∃ st', stepIteration root script worlds ctx st = .ok st'
      ∧ st'.completed = true ∧ st'.iterations = st.iterations + 1 := by
  have hcb := mem_toolCBs id "task_complete" input blocks hmem
  rw [stepIteration_spec, hs]
  dsimp only
  rw [if_neg (by simp [List.isEmpty_iff, List.ne_nil_of_mem hcb])]
  refine ⟨_, rfl, ?_, ?_⟩
  · exact foldl_execOneTool_completed_of_mem root worlds ctx _ _ _ hcb rfl
  · show ((toolCBs blocks).foldl (execOneTool root worlds ctx) _).1.iterations = _
    rw [foldl_execOneTool_iterations]
    simp [bumpIter]

/-- If the response contains no tool invocation, the iteration ends with
the task marked completed and a `task_completed` event published. -/
theorem stepIteration_no_tools (root : String) (script : Nat → IterOutcome)
    (worlds : Nat → ToolWorld) (ctx : ToolCtx) (st : TaskState) (blocks : List Block)
    (hs : script st.iterations = .response blocks)
    (ht : blocks.all Block.isText = true) :
    ∃ st', stepIteration root script worlds ctx st = .ok st'
      ∧ st'.completed = true ∧ st'.iterations = st.iterations + 1
      ∧ ProgressEvent.taskCompleted none none
          (some "Agent completed thinking, no more actions needed") ∈ st'.events := by
  have htc : toolCBs blocks = [] := toolCBs_eq_nil_of_all_text blocks ht
  rw [stepIteration_spec, hs]
  dsimp only
  rw [if_pos (show (toolCBs blocks).isEmpty = true by rw [htc]; rfl)]
  exact ⟨_, rfl, rfl, by simp [bumpIter], by simp⟩

/-- Claim C2: For every valid task processed by `processTask`, exactly one
terminal result record is written to `result:<taskId>`, and any
iteration count recorded in it satisfies `iterations ≤ maxIterations`
(20). -/
theorem processTask_unique_result (root agentType : String) (script : Nat → IterOutcome)
    (worlds : Nat → ToolWorld) (fs0 : Fs) (task : OrchTask) :
    (processTask root agentType script worlds fs0 task).2.length = 1
    ∧ ∀ r ∈ (processTask root agentType script worlds fs0 task).2,
        ∀ n, r.iterations = some n → n ≤ maxIterations := by
  have hle := runIterations_iterations_le root script worlds
      ⟨task.taskId, task.projectId, task.userId⟩ maxIterations (initState agentType fs0 task)
  cases hrun : runIterations root script worlds ⟨task.taskId, task.projectId, task.userId⟩
      maxIterations (initState agentType fs0 task) with
  | ok st =>
    rw [hrun] at hle
    simp only [outState, initState] at hle
    simp only [processTask, hrun]
    split
    · refine ⟨rfl, ?_⟩
      intro r hr n hn
      simp only [List.mem_singleton] at hr
      subst hr
      simp only at hn
      simp at hn
      omega
    · refine ⟨rfl, ?_⟩
      intro r hr n hn
      simp only [List.mem_singleton] at hr
      subst hr
      simp at hn
      omega
  | error e =>
    obtain ⟨m, st⟩ := e
    simp only [processTask, hrun]
    refine ⟨rfl, ?_⟩
    intro r hr n hn
    simp only [List.mem_singleton] at hr
    subst hr
    simp at hn

theorem processTask_unique_result_witness :
    (processTask "/w" "generic" emptyScript okWorlds [] demoTask).2.length = 1
    ∧ 1 ≤ maxIterations :=
  ⟨(processTask_unique_result "/w" "generic" emptyScript okWorlds [] demoTask).1,
   (processTask_unique_result "/w" "generic" emptyScript okWorlds [] demoTask).2
     ⟨"t1", "generic", some 1, some true, none, 3600⟩ (by decide) 1 (by decide)⟩

/-- Claim C4: Whenever the model's response in an iteration contains a
`task_complete` invocation (which always reports success), the task is
marked completed in that iteration and no further iterations occur, no
matter how much iteration budget remains and what other tool calls the
batch carried. -/
theorem task_complete_halts_loop (root : String) (script : Nat → IterOutcome)
    (worlds : Nat → ToolWorld) (ctx : ToolCtx) (fuel : Nat) (st : TaskState)
    (blocks : List Block) (id : String) (input : ToolInput)
    (hc : st.completed = false)
    (hs : script st.iterations = .response blocks)
    (hmem : Block.toolUse id "task_complete" input ∈ blocks) :
    ∃ st', runIterations root script worlds ctx (fuel + 1) st = .ok st'
      ∧ st'.completed = true ∧ st'.iterations = st.iterations + 1 := by
  obtain ⟨st', hstep, hcomp, hiter⟩ :=
    stepIteration_task_complete root script worlds ctx st blocks id input hs hmem
  refine ⟨st', ?_, hcomp, hiter⟩
  simp only [runIterations]
  rw [if_neg (by simp [hc]), hstep]
  exact runIterations_of_completed root script worlds ctx fuel st' hcomp

theorem task_complete_halts_loop_witness :
    ∃ st', runIterations "/w" batchScript okWorlds ⟨"t1", "p1", "u1"⟩ 20
        (initState "generic" [] demoTask) = .ok st'
      ∧ st'.completed = true
      ∧ st'.iterations = (initState "generic" [] demoTask).iterations + 1 :=
  task_complete_halts_loop "/w" batchScript okWorlds ⟨"t1", "p1", "u1"⟩ 19
    (initState "generic" [] demoTask)
    [.toolUse "a" "web_search" { query := some "x" },
     .toolUse "b" "task_complete" { summary := some "s" }]
    "b" { summary := some "s" } rfl rfl (by decide)

/-- Claim C5: Whenever the model's response in an iteration contains no
tool invocation at all, the task is marked completed within that same
iteration: a `task_completed` event is published and the loop
terminates. -/
theorem no_tools_completes_same_iteration (root : String) (script : Nat → IterOutcome)
    (worlds : Nat → ToolWorld) (ctx : ToolCtx) (fuel : Nat) (st : TaskState)
    (blocks : List Block)
    (hc : st.completed = false)
    (hs : script st.iterations = .response blocks)
    (ht : blocks.all Block.isText = true) :
    ∃ st', runIterations root script worlds ctx (fuel + 1) st = .ok st'
      ∧ st'.completed = true ∧ st'.iterations = st.iterations + 1
      ∧ ProgressEvent.taskCompleted none none
          (some "Agent completed thinking, no more actions needed") ∈ st'.events := by
  obtain ⟨st', hstep, hcomp, hiter, hmem⟩ :=
    stepIteration_no_tools root script worlds ctx st blocks hs ht
  refine ⟨st', ?_, hcomp, hiter, hmem⟩
  simp only [runIterations]
  rw [if_neg (by simp [hc]), hstep]
  exact runIterations_of_completed root script worlds ctx fuel st' hcomp

theorem no_tools_completes_same_iteration_witness :
    ∃ st', runIterations "/w" textScript okWorlds ⟨"t1", "p1", "u1"⟩ 20
        (initState "generic" [] demoTask) = .ok st'
      ∧ st'.completed = true
      ∧ st'.iterations = (initState "generic" [] demoTask).iterations + 1
      ∧ ProgressEvent.taskCompleted none none
          (some "Agent completed thinking, no more actions needed") ∈ st'.events :=
  no_tools_completes_same_iteration "/w" textScript okWorlds ⟨"t1", "p1", "u1"⟩ 19
    (initState "generic" [] demoTask) [.text ["Hello, ", "done."]] rfl rfl (by decide)

/-- Claim C10: The `task_complete` handler succeeds for every input
(including missing `summary` or `files_modified`), reporting
`success = true` and `completed = true` with no filesystem effect; hence
executing any `task_complete` tool call marks the task completed, which
terminates the iteration loop. -/
theorem task_complete_always_succeeds (root : String) (input : ToolInput) (ctx : ToolCtx)
    (fs : Fs) (w : ToolWorld) (worlds : Nat → ToolWorld) (st : TaskState)
    (acc : List (String × ToolResult)) (id : String) :
    (executeTool root "task_complete" input ctx fs w).result.success = true
    ∧ (executeTool root "task_complete" input ctx fs w).result.completed = some true
    ∧ (executeTool root "task_complete" input ctx fs w).fs = fs
    ∧ (executeTool root "task_complete" input ctx fs w).fileEvents = []
    ∧ ((execOneTool root worlds ctx (st, acc)
          ⟨"tool_use", "", id, "task_complete", input⟩).1).completed = true := by
  refine ⟨rfl, rfl, rfl, rfl, ?_⟩
  rw [execOneTool_fst_completed]
  simp [executeTool_task_complete_eq]

/-- Claim C3, counterexample: With a model that completes exactly on the
20th iteration, the counter reaches the cap *and* the task reaches
`Completed`, yet `task_warning` is still published: the warning is not
restricted to the non-completed case.  The terminal record moreover has
`completed = true`. -/
theorem task_warning_despite_completion :
    ProgressEvent.taskWarning
        ∈ (processTask "/w" "generic" lateCompleteScript okWorlds [] demoTask).1.events
    ∧ (processTask "/w" "generic" lateCompleteScript okWorlds [] demoTask).2
        = [⟨"t1", "generic", some 20, some true, none, 3600⟩] := by decide

/-- Claim C3, amended: A `task_warning` is published exactly when the
loop exits normally (no provider error) with the counter at
`maxIterations`, regardless of whether the task completed on the final
iteration; and a terminal record with `completed = false` always has no
`error` field. -/
theorem task_warning_iff_cap_reached (root agentType : String) (script : Nat → IterOutcome)
    (worlds : Nat → ToolWorld) (fs0 : Fs) (task : OrchTask) :
    (ProgressEvent.taskWarning ∈ (processTask root agentType script worlds fs0 task).1.events
      ↔ ∃ c, (processTask root agentType script worlds fs0 task).2
          = [⟨task.taskId, agentType, some maxIterations, some c, none, 3600⟩])
    ∧ ∀ r ∈ (processTask root agentType script worlds fs0 task).2,
        r.completed = some false → r.error = none := by
  have hnw := runIterations_no_warning root script worlds
      ⟨task.taskId, task.projectId, task.userId⟩ maxIterations
      (initState agentType fs0 task) (by simp [initState])
  have hle := runIterations_iterations_le root script worlds
      ⟨task.taskId, task.projectId, task.userId⟩ maxIterations (initState agentType fs0 task)
  cases hrun : runIterations root script worlds ⟨task.taskId, task.projectId, task.userId⟩
      maxIterations (initState agentType fs0 task) with
  | ok st =>
    rw [hrun] at hnw hle
    simp only [outState, initState] at hnw hle
    simp only [processTask, hrun]
    by_cases hge : maxIterations ≤ st.iterations
    · rw [if_pos hge]
      have h20 : st.iterations = maxIterations := by omega
      refine ⟨⟨fun _ => ⟨st.completed, by simp [h20]⟩, fun _ => by simp⟩, ?_⟩
      intro r hr _
      simp only [List.mem_singleton] at hr
      subst hr
      rfl
    · rw [if_neg hge]
      refine ⟨⟨fun hw => absurd hw hnw, ?_⟩, ?_⟩
      · rintro ⟨c, hc⟩
        simp only [List.cons.injEq, StoredResult.mk.injEq, Option.some.injEq] at hc
        omega
      · intro r hr _
        simp only [List.mem_singleton] at hr
        subst hr
        rfl
  | error e =>
    obtain ⟨m, st⟩ := e
    rw [hrun] at hnw
    simp only [outState] at hnw
    simp only [processTask, hrun]
    refine ⟨⟨?_, ?_⟩, ?_⟩
    · intro hw
      simp only [List.mem_append, List.mem_singleton] at hw
      rcases hw with hw | hw
      · exact absurd hw hnw
      · exact ProgressEvent.noConfusion hw
    · rintro ⟨c, hc⟩
      simp at hc
    · intro r hr hcf
      simp only [List.mem_singleton] at hr
      subst hr
      exact Option.noConfusion hcf

theorem task_warning_iff_cap_reached_witness :
    (StoredResult.mk "t1" "generic" (some 20) (some false) none 3600).error = none :=
  (task_warning_iff_cap_reached "/w" "generic" busyScript okWorlds [] demoTask).2
    ⟨"t1", "generic", some 20, some false, none, 3600⟩ (by decide) (by decide)

/-- Claim C8, counterexample: On the provider-error path the stored
terminal record is `{taskId, agentType, error, timestamp}`: it contains
neither the `iterations` field nor the `completed` field, contrary to
the claimed shape. -/
theorem error_result_lacks_loop_fields :
    (processTask "/w" "generic" errScript okWorlds [] demoTask).2
      = [⟨"t1", "generic", none, none, some "boom", 3600⟩] := by decide

/-- Claim C8, amended: Every terminal record is stored under the task's
id with TTL 3600 and has one of two shapes: the success-path shape with
`iterations` and `completed` present and no `error`, or the
provider-error shape with `error` present and neither `iterations` nor
`completed`. -/
theorem result_record_shape (root agentType : String) (script : Nat → IterOutcome)
    (worlds : Nat → ToolWorld) (fs0 : Fs) (task : OrchTask) :
    ∀ r ∈ (processTask root agentType script worlds fs0 task).2,
      r.taskId = task.taskId ∧ r.agentType = agentType ∧ r.ttlSeconds = 3600
      ∧ ((r.iterations.isSome = true ∧ r.completed.isSome = true ∧ r.error = none)
         ∨ (r.iterations = none ∧ r.completed = none ∧ r.error.isSome = true)) := by
  cases hrun : runIterations root script worlds ⟨task.taskId, task.projectId, task.userId⟩
      maxIterations (initState agentType fs0 task) with
  | ok st =>
    simp only [processTask, hrun]
    split
    · intro r hr
      simp only [List.mem_singleton] at hr
      subst hr
      exact ⟨rfl, rfl, rfl, .inl ⟨rfl, rfl, rfl⟩⟩
    · intro r hr
      simp only [List.mem_singleton] at hr
      subst hr
      exact ⟨rfl, rfl, rfl, .inl ⟨rfl, rfl, rfl⟩⟩
  | error e =>
    obtain ⟨m, st⟩ := e
    simp only [processTask, hrun]
    intro r hr
    simp only [List.mem_singleton] at hr
    subst hr
    exact ⟨rfl, rfl, rfl, .inr ⟨rfl, rfl, rfl⟩⟩

theorem result_record_shape_witness :
    demoRecord.taskId = demoTask.taskId ∧ demoRecord.agentType = "generic"
    ∧ demoRecord.ttlSeconds = 3600
    ∧ ((demoRecord.iterations.isSome = true ∧ demoRecord.completed.isSome = true
        ∧ demoRecord.error = none)
       ∨ (demoRecord.iterations = none ∧ demoRecord.completed = none
          ∧ demoRecord.error.isSome = true)) :=
  result_record_shape "/w" "generic" emptyScript okWorlds [] demoTask demoRecord (by decide)

/-- Claim C1: The workspace resolution does *not* reject or safely
normalize parent-directory segments: `create_file` at
`"../../escape.txt"` resolves through `path.join` to `/escape.txt`,
outside both the project root `/workspace/proj` and the workspace root
`/workspace`, succeeds, and writes the file there. -/
theorem create_file_escapes_project_root :
    (executeTool "/workspace" "create_file"
        { path := some "../../escape.txt", content := some "boom" }
        ⟨"task-1", "proj", "user-1"⟩ [] ⟨true, .ok ("", "")⟩).result.success = true
    ∧ (executeTool "/workspace" "create_file"
        { path := some "../../escape.txt", content := some "boom" }
        ⟨"task-1", "proj", "user-1"⟩ [] ⟨true, .ok ("", "")⟩).fs
        = [("/escape.txt", "boom")]
    ∧ pathJoin (pathJoin "/workspace" "proj") "../../escape.txt" = "/escape.txt"
    ∧ underRoot (pathJoin "/workspace" "proj") "/escape.txt" = false
    ∧ underRoot "/workspace" "/escape.txt" = false := by decide

/-- Claim C6, counterexample: When the `files:<projectId>` publish fails
after `create_file`'s write, the dispatcher returns `success = false`,
yet the file write persists on disk and no file event reports it: a
partial observable side effect beyond what the result reports. -/
theorem create_file_write_persists_on_failure :
    (executeTool "/workspace" "create_file" { path := some "a.txt", content := some "hi" }
        ⟨"t", "p", "u"⟩ [] ⟨false, .ok ("", "")⟩).result.success = false
    ∧ (executeTool "/workspace" "create_file" { path := some "a.txt", content := some "hi" }
        ⟨"t", "p", "u"⟩ [] ⟨false, .ok ("", "")⟩).fs
        = [("/workspace/p/a.txt", "hi")]
    ∧ (executeTool "/workspace" "create_file" { path := some "a.txt", content := some "hi" }
        ⟨"t", "p", "u"⟩ [] ⟨false, .ok ("", "")⟩).fileEvents = [] := by decide

/-- Claim C6, amended: Whenever `executeTool` returns `success = false`,
the result does carry an error string; the no-partial-side-effect part
of the claim fails (see the counterexample) because `create_file` and
`edit_file` write before publishing. -/
theorem tool_failure_carries_error (root toolName : String) (input : ToolInput)
    (ctx : ToolCtx) (fs : Fs) (w : ToolWorld)
    (h : (executeTool root toolName input ctx fs w).result.success = false) :
    (executeTool root toolName input ctx fs w).result.error.isSome = true := by
  revert h
  unfold executeTool
  dsimp only
  repeat' split
  all_goals simp [typeErrorResult]

theorem tool_failure_carries_error_witness :
    ((executeTool "/w" "bogus_tool" {} ⟨"t", "p", "u"⟩ [] ⟨true, .ok ("", "")⟩).result.error).isSome
      = true :=
  tool_failure_carries_error "/w" "bogus_tool" {} ⟨"t", "p", "u"⟩ [] ⟨true, .ok ("", "")⟩
    (by decide)

/-- Claim C7: If the target file exists but `old_content` does not occur
in its current content, `edit_file` fails with the descriptive
not-found error, performs no write (the filesystem is unchanged) and
publishes no file mutation. -/
theorem edit_file_not_found_no_write (root : String) (input : ToolInput) (ctx : ToolCtx)
    (fs : Fs) (w : ToolWorld) (p old c : String)
    (hp : input.path = some p) (hold : input.old_content = some old)
    (hread : fsRead fs (pathJoin (pathJoin root ctx.projectId) p) = some c)
    (hni : jsIncludes c old = false) :
    (executeTool root "edit_file" input ctx fs w).result.success = false
    ∧ (executeTool root "edit_file" input ctx fs w).result.error
        = some ("Old content not found in " ++ p ++ ". The file may have changed.")
    ∧ (executeTool root "edit_file" input ctx fs w).fs = fs
    ∧ (executeTool root "edit_file" input ctx fs w).fileEvents = [] := by
  simp [executeTool, hp, hold, hread, hni]

theorem edit_file_not_found_no_write_witness :
    (executeTool "/w" "edit_file"
        { path := some "f.txt", old_content := some "ZZZ", new_content := some "Y" }
        ⟨"t", "p", "u"⟩ [("/w/p/f.txt", "hello")] ⟨true, .ok ("", "")⟩).result.success = false
    ∧ (executeTool "/w" "edit_file"
        { path := some "f.txt", old_content := some "ZZZ", new_content := some "Y" }
        ⟨"t", "p", "u"⟩ [("/w/p/f.txt", "hello")] ⟨true, .ok ("", "")⟩).result.error
        = some ("Old content not found in " ++ "f.txt" ++ ". The file may have changed.")
    ∧ (executeTool "/w" "edit_file"
        { path := some "f.txt", old_content := some "ZZZ", new_content := some "Y" }
        ⟨"t", "p", "u"⟩ [("/w/p/f.txt", "hello")] ⟨true, .ok ("", "")⟩).fs
        = [("/w/p/f.txt", "hello")]
    ∧ (executeTool "/w" "edit_file"
        { path := some "f.txt", old_content := some "ZZZ", new_content := some "Y" }
        ⟨"t", "p", "u"⟩ [("/w/p/f.txt", "hello")] ⟨true, .ok ("", "")⟩).fileEvents = [] :=
  edit_file_not_found_no_write "/w"
    { path := some "f.txt", old_content := some "ZZZ", new_content := some "Y" }
    ⟨"t", "p", "u"⟩ [("/w/p/f.txt", "hello")] ⟨true, .ok ("", "")⟩ "f.txt" "ZZZ" "hello"
    rfl rfl (by decide) (by decide)

theorem toolCBs_append (l1 l2 : List Block) :
    toolCBs (l1 ++ l2) = toolCBs l1 ++ toolCBs l2 := by
  induction l1 with
  | nil => rfl
  | cons b r ih => cases b <;> simp [toolCBs, ih]

theorem blocksContent_append (l1 l2 : List Block) :
    blocksContent (l1 ++ l2) = blocksContent l1 ++ blocksContent l2 := by
  induction l1 with
  | nil => rfl
  | cons b r ih => cases b <;> simp [blocksContent, ih]

theorem blocksEvents_append (l1 l2 : List Block) :
    blocksEvents (l1 ++ l2) = blocksEvents l1 ++ blocksEvents l2 := by
  induction l1 with
  | nil => rfl
  | cons b r ih => cases b <;> simp [blocksEvents, ih]

theorem chunkTexts_map_chunk (ds : List String) :
    chunkTexts (ds.map ProgressEvent.thinkingChunk) = ds := by
  induction ds with
  | nil => rfl
  | cons d r ih => simp [chunkTexts, List.filterMap_cons] at ih ⊢; exact ih

theorem chunkTexts_thinkingStart (l : List ProgressEvent) :
    chunkTexts (ProgressEvent.thinkingStart :: l) = chunkTexts l := by
  simp [chunkTexts, List.filterMap_cons]

/-- Claim C9: For every text block of the model's stream (anywhere in the
response), the `thinking_chunk` payloads emitted for that block,
concatenated in emission order, are exactly the final text of the
content block appended to the assistant message: the appended block's
text is literally `strConcat (chunkTexts (blocksEvents [Block.text ds]))`. -/
theorem thinking_chunks_reconstruct_text (pre post : List Block) (ds : List String) :
    runStream (blocksStream (pre ++ Block.text ds :: post)) initAcc
      = ⟨"", toolCBs pre ++ toolCBs post,
          blocksContent pre ++
            ⟨"text", strConcat (chunkTexts (blocksEvents [Block.text ds])), "", "", {}⟩ ::
            blocksContent post,
          blocksEvents pre ++ blocksEvents [Block.text ds] ++ blocksEvents post⟩ := by
  have h := runStream_blocks (pre ++ Block.text ds :: post) [] [] []
  rw [show (initAcc : StreamAcc) = ⟨"", [], [], []⟩ from rfl, h]
  rw [show blocksEvents [Block.text ds]
        = ProgressEvent.thinkingStart :: ds.map ProgressEvent.thinkingChunk from by
      simp [blocksEvents]]
  rw [chunkTexts_thinkingStart, chunkTexts_map_chunk]
  simp [toolCBs_append, blocksContent_append, blocksEvents_append,
    toolCBs, blocksContent, blocksEvents, List.append_assoc]
